import Mathlib

set_option maxRecDepth 8000

/-!
Verification of the parcp batching and merging core.

This file gives a shallow embedding of the two algorithmic components of the
parcp repository and proves properties of them:

* `parcp/cpimages.py` — `CellProfilerImages.split_images` and its helpers
  (`get_object_name`, `next_csv_filename`, `save_as_csv_list`): grouping image
  records by their group-by value, checking channel alignment, slicing the
  aligned image sets into fixed-size batches, and serializing each batch to a
  CSV row table.
* `parcp/__init__.py` — `ParallelCellProfiler.merge_object_results` and
  `merge_results`: renumbering the two leading identifier columns of per-batch
  result tables into one global sequence and concatenating the tables.

Python strings are modelled as `String`, Python dicts as ordered association
lists, the filesystem effects of a run (files created, contents written,
handles closed) as explicit fields of outcome structures, and Python
exceptions (`assert` failures, `KeyError`, `IOError`) as explicit error values
that stop the run, leaving the effects performed so far in place.
-/

/-! ## String utilities (Python `str` operations used by the source) -/

/-- Lexicographic comparison of char lists by code point, as Python compares
strings. -/
def charListLt : List Char → List Char → Bool
  | [], [] => false
  | [], _ :: _ => true
  | _ :: _, [] => false
  | a :: as, b :: bs =>
    if a.toNat < b.toNat then true
    else if b.toNat < a.toNat then false
    else charListLt as bs

/-- Boolean `a <= b` on strings, the order used by Python `sorted`. -/
def strLe (a b : String) : Bool := !(charListLt b.data a.data)

/-- Does `pat` occur as a contiguous sublist of the second argument?  Models
the Python substring test `pat in s`. -/
def isInfixL (pat : List Char) : List Char → Bool
  | [] => pat.isEmpty
  | a :: as => pat.isPrefixOf (a :: as) || isInfixL pat as

/-- Python `pat in s` on strings. -/
def isSubstr (pat s : String) : Bool := isInfixL pat.data s.data

/-- Removes the first occurrence of `pat`, as Python `s.replace(pat, '', 1)`. -/
def stripFirstL (pat : List Char) : List Char → List Char
  | [] => []
  | c :: rest =>
    if pat.isPrefixOf (c :: rest) then (c :: rest).drop pat.length
    else c :: stripFirstL pat rest

/-- Python `s.replace(pat, '', 1)` on strings. -/
def stripFirstS (pat s : String) : String := ⟨stripFirstL pat.data s.data⟩

/-- Removes every (non-overlapping, left-to-right) occurrence of `pat`;
fuel-driven so that it computes by kernel reduction.  The fuel is the length
of the scanned list, which suffices because every step consumes at least one
character. -/
def stripAllFuel (pat : List Char) : Nat → List Char → List Char
  | 0, s => s
  | _ + 1, [] => []
  | fuel + 1, c :: rest =>
    if !pat.isEmpty && pat.isPrefixOf (c :: rest) then
      stripAllFuel pat fuel ((c :: rest).drop pat.length)
    else c :: stripAllFuel pat fuel rest

/-- Python `s.replace(pat, '')` (all occurrences) on char lists. -/
def stripAllL (pat s : List Char) : List Char := stripAllFuel pat s.length s

/-- Python `s.replace(pat, '')` (all occurrences) on strings. -/
def stripAllS (pat s : String) : String := ⟨stripAllL pat.data s.data⟩

/-- Python `str.title()`: the first letter of every alphabetic run is
uppercased, the following letters lowercased. -/
def pyTitleAux : Bool → List Char → List Char
  | _, [] => []
  | prevAlpha, c :: cs =>
    (if c.isAlpha then (if prevAlpha then c.toLower else c.toUpper) else c) ::
      pyTitleAux c.isAlpha cs

/-- Python `str.title()` on strings. -/
def pyTitle (s : String) : String := ⟨pyTitleAux false s.data⟩

/-! ## List utilities (Python `sorted` and dict behaviour) -/

/-- Insertion into a sorted list, keeping an earlier element first among
equals (stability). -/
def insertLe {α : Type} (le : α → α → Bool) (a : α) : List α → List α
  | [] => [a]
  | b :: bs => if le a b then a :: b :: bs else b :: insertLe le a bs

/-- Stable sort by a boolean comparison; models Python `sorted`, which is a
stable sort, so any stable sort computes the same list. -/
def sortBy {α : Type} (le : α → α → Bool) : List α → List α
  | [] => []
  | a :: as => insertLe le a (sortBy le as)

/-- Keeps the first occurrence of every element; models the key set of a dict
built by insertion. -/
def dedupFirstAux {α : Type} [DecidableEq α] (seen : List α) : List α → List α
  | [] => []
  | a :: as =>
    if a ∈ seen then dedupFirstAux seen as
    else a :: dedupFirstAux (seen ++ [a]) as

/-- Python dict lookup returning `none` when the key is absent. -/
def dictGet (l : List (String × String)) (k : String) : Option String :=
  (l.find? (fun p => p.1 = k)).map (fun p => p.2)

/-- Python dict assignment `d[k] = v`: overrides an existing binding in place,
otherwise appends. -/
def dictSet (l : List (String × String)) (k v : String) : List (String × String) :=
  if l.any (fun p => p.1 = k) then l.map (fun p => if p.1 = k then (k, v) else p)
  else l ++ [(k, v)]

/-! ## Data model of the split side (`parcp/cpimages.py`) -/

/-- One parsed image file: the literal `filename` metadata entry, the value of
the configured group-by field (e.g. the channel), and the remaining metadata
key-value pairs from the filename pattern's named capture groups. -/
structure ImageRecord where
  filename : String
  groupValue : String
  extra : List (String × String)
deriving DecidableEq, Repr

/-- The exceptions `split_images` and `save_as_csv_list` can raise.
`noImageFilesFound` models `NoImageFilesFound`; the three `assert`s and the
two `KeyError` sites are modelled by the remaining constructors. -/
inductive SplitError where
  | noImageFilesFound
  | noGroups
  | unalignedGroups
  | misalignedImageSet (shared filename : String)
  | unmappedGroupKey (groupKey : String)
  | fieldmapKeyError (key : String)
deriving DecidableEq, Repr

/-- One batch CSV file on disk: its name and, when the serialization completed,
its header together with its data rows (each row the dict written by the
`csv.DictWriter`).  `content = none` models a file that was created by
`io.open` but abandoned when an exception fired before the rows were
written. -/
structure CsvFile where
  name : String
  content : Option (List String × List (List (String × String)))
deriving DecidableEq, Repr

/-- The externally visible state after a `split_images` run: the emitted batch
files (each paired with the image-set chunk it serializes), the final value of
the `set_num` counter, and the exception that stopped the run, if any. -/
structure SplitOutcome where
  files : List (List (List ImageRecord) × CsvFile)
  setNum : Nat
  error : Option SplitError
deriving DecidableEq, Repr

/-- Grouping key sort of the record list (`sorted(image_files, key=...)`). -/
def sortedFilesOf (files : List ImageRecord) : List ImageRecord :=
  sortBy (fun a b => strLe a.groupValue b.groupValue) files

/-- The sorted distinct group keys (`group_keys = sorted(image_groups.keys())`). -/
def keysOf (files : List ImageRecord) : List String :=
  sortBy strLe (dedupFirstAux [] ((sortedFilesOf files).map (fun r => r.groupValue)))

/-- The channel group of one key, internally sorted by filename
(`image_groups[group_key]` after the per-group `sorted(..., key=filename)`). -/
def groupsOf (files : List ImageRecord) (k : String) : List ImageRecord :=
  sortBy (fun a b => strLe a.filename b.filename)
    ((sortedFilesOf files).filter (fun r => r.groupValue = k))

/-- The number of image sets a run builds:
`image_group_size = len(image_groups[group_keys[0]])`. -/
def numImageSets (files : List ImageRecord) : Nat :=
  (groupsOf files ((keysOf files).headD "")).length

/-- Indexing a group at a step (`image_groups[group_key][step]`); positions are
in range whenever the group-size assert has passed. -/
def memberAt (groups : String → List ImageRecord) (k : String) (step : Nat) : ImageRecord :=
  (groups k).getD step { filename := "", groupValue := "", extra := [] }

/-- The reference base name of a step:
`image_groups[group_keys[0]][step]['filename'].replace(groupvalue, '')` —
note the missing count argument: all occurrences are removed here. -/
def sharedImageName (groups : String → List ImageRecord) (k0 : String) (step : Nat) : String :=
  stripAllS (memberAt groups k0 step).groupValue (memberAt groups k0 step).filename

/-- The alignment loop body over the group keys: every member's filename with
its group value removed once (`replace(value, '', 1)`) must equal the shared
base, else the `assert` fires. -/
def mkEntryLoop (shared : String) (groups : String → List ImageRecord) (step : Nat) :
    List String → List ImageRecord → Except SplitError (List ImageRecord)
  | [], acc => .ok acc
  | k :: rest, acc =>
    let m := memberAt groups k step
    if stripFirstS m.groupValue m.filename = shared then
      mkEntryLoop shared groups step rest (acc ++ [m])
    else .error (.misalignedImageSet shared m.filename)

/-- Builds the image set of one step: the aligned tuple of per-channel
members, or the alignment error. -/
def mkEntry (keys : List String) (groups : String → List ImageRecord) (step : Nat) :
    Except SplitError (List ImageRecord) :=
  match keys with
  | [] => .ok []
  | k0 :: _ => mkEntryLoop (sharedImageName groups k0 step) groups step keys []

/-! ## Serialization (`save_as_csv_list`, `get_object_name`) -/

/-- Resolves a group key to an object name by substring lookup in the
`group_key_mapping` (`for key in mapping: if key in group_key: return ...`);
the dict is modelled as an ordered list, first match wins; no match raises
`KeyError`. -/
def get_object_name (km : List (String × String)) (group_key : String) :
    Except SplitError String :=
  match km.find? (fun p => isSubstr p.1 group_key) with
  | some p => .ok p.2
  | none => .error (.unmappedGroupKey group_key)

/-- The metadata dict of a record as iterated by `for fieldname in metadata`:
the `filename` entry, the group-by entry, then the remaining fields. -/
def fieldsOf (gf : String) (m : ImageRecord) : List (String × String) :=
  ("filename", m.filename) :: (gf, m.groupValue) :: m.extra

/-- `fieldnames = image_set[0][0].keys()` with `filename` moved to the front. -/
def fieldnamesOf (gf : String) (image_set : List (List ImageRecord)) : List String :=
  match image_set with
  | (m :: _) :: _ => "filename" :: gf :: m.extra.map (fun p => p.1)
  | _ => []

/-- The per-object field key `'%s_%d' % (fieldname, object_num)`. -/
def objectKey (fieldname : String) (objectNum : Nat) : String :=
  fieldname ++ "_" ++ toString objectNum

/-- One header-building pass over `fieldnames` for one member: appends the
mapped column names to `header` and records them in `fieldmap`. -/
def buildHeaderFieldmap (fieldnames : List String) (objectname : String) (objectNum : Nat)
    (header : List String) (fieldmap : List (String × String)) :
    List String × List (String × String) :=
  fieldnames.foldl
    (fun st fieldname =>
      let mapped :=
        if fieldname = "filename" then "Image_FileName_" ++ objectname
        else "Metadata_" ++ pyTitle fieldname ++ "_" ++ objectname
      (st.1 ++ [mapped], dictSet st.2 (objectKey fieldname objectNum) mapped))
    (header, fieldmap)

/-- The `for fieldname in metadata` loop writing one member's values into the
row dict; a missing fieldmap key raises `KeyError`. -/
def rowFields (fieldmap : List (String × String)) (objectNum : Nat) :
    List (String × String) → List (String × String) →
    Except SplitError (List (String × String))
  | [], row => .ok row
  | (fieldname, value) :: rest, row =>
    match dictGet fieldmap (objectKey fieldname objectNum) with
    | some col => rowFields fieldmap objectNum rest (dictSet row col value)
    | none => .error (.fieldmapKeyError (objectKey fieldname objectNum))

/-- The `for object_num, metadata in enumerate(image_entry)` loop: per member,
resolve the object name, build header and fieldmap when the header has not
been committed yet, then write the member's fields into the row. -/
def processMembers (km : List (String × String)) (gf : String) (fieldnames : List String)
    (hasHeader : Bool) :
    Nat → List ImageRecord → List (String × String) → List String →
    List (String × String) →
    Except SplitError (List (String × String) × List String × List (String × String))
  | _, [], row, header, fieldmap => .ok (row, header, fieldmap)
  | objectNum, m :: ms, row, header, fieldmap =>
    match get_object_name km m.groupValue with
    | .error e => .error e
    | .ok objectname =>
      let hf :=
        if hasHeader then (header, fieldmap)
        else buildHeaderFieldmap fieldnames objectname objectNum header fieldmap
      match rowFields hf.2 objectNum (fieldsOf gf m) row with
      | .error e => .error e
      | .ok row' => processMembers km gf fieldnames hasHeader (objectNum + 1) ms row' hf.1 hf.2

/-- The `for image_entry in image_set` loop of `save_as_csv_list`, appending
one row dict per image set. -/
def saveEntries (km : List (String × String)) (gf : String) (fieldnames : List String) :
    List (List ImageRecord) → Bool → List String → List (String × String) →
    List (List (String × String)) →
    Except SplitError (List String × List (List (String × String)))
  | [], _, header, _, rows => .ok (header, rows)
  | entry :: rest, hasHeader, header, fieldmap, rows =>
    match processMembers km gf fieldnames hasHeader 0 entry [] header fieldmap with
    | .error e => .error e
    | .ok (row, header', fieldmap') =>
      saveEntries km gf fieldnames rest true header' fieldmap' (rows ++ [row])

/-- Serializes one batch: the header and data rows written by
`save_as_csv_list`, or the exception that fired while building them. -/
def save_as_csv_list (km : List (String × String)) (gf : String)
    (image_set : List (List ImageRecord)) :
    Except SplitError (List String × List (List (String × String))) :=
  saveEntries km gf (fieldnamesOf gf image_set) image_set false [] [] []

/-- The filename produced by `next_csv_filename` for a given `set_num`, with
the default template `image_set_%(set_num)d.csv`. -/
def csvName (setNum : Nat) : String := "image_set_" ++ toString setNum ++ ".csv"

/-- One flush: `next_csv_filename` (whose counter increment the caller
performs) then `save_as_csv_list`.  On an exception the file exists but holds
no rows. -/
def flushSet (km : List (String × String)) (gf : String)
    (imageSet : List (List ImageRecord)) (setNum : Nat) :
    (List (List ImageRecord) × CsvFile) × Option SplitError :=
  match save_as_csv_list km gf imageSet with
  | .ok (hdr, rows) => ((imageSet, { name := csvName setNum, content := some (hdr, rows) }), none)
  | .error e => ((imageSet, { name := csvName setNum, content := none }), some e)

/-- The `for step in range(image_group_size)` loop of `split_images`: build
the step's image set, flush when the pending batch reaches the size limit,
and flush the final partial batch after the loop. -/
def splitLoop (km : List (String × String)) (gf : String) (limit : Nat)
    (keys : List String) (groups : String → List ImageRecord) :
    List Nat → List (List ImageRecord) →
    List (List (List ImageRecord) × CsvFile) → Nat → SplitOutcome
  | [], imageSet, files, setNum =>
    if imageSet.length > 0 then
      match flushSet km gf imageSet setNum with
      | (f, e) => { files := files ++ [f], setNum := setNum + 1, error := e }
    else { files := files, setNum := setNum, error := none }
  | step :: steps, imageSet, files, setNum =>
    match mkEntry keys groups step with
    | .error e => { files := files, setNum := setNum, error := some e }
    | .ok entry =>
      let imageSet' := imageSet ++ [entry]
      if limit ≤ imageSet'.length then
        match flushSet km gf imageSet' setNum with
        | (f, none) => splitLoop km gf limit keys groups steps [] (files ++ [f]) (setNum + 1)
        | (f, some e) => { files := files ++ [f], setNum := setNum + 1, error := some e }
      else splitLoop km gf limit keys groups steps imageSet' files setNum

/-- `CellProfilerImages.split_images` from a freshly constructed object
(`set_num = 0`): raise `NoImageFilesFound` on an empty record list, group, run
the two asserts (at least one group; equal group sizes), then slice and emit
batches. -/
def split_images (km : List (String × String)) (gf : String) (limit : Nat)
    (files : List ImageRecord) : SplitOutcome :=
  if files.length = 0 then { files := [], setNum := 0, error := some .noImageFilesFound }
  else if (keysOf files).length = 0 then { files := [], setNum := 0, error := some .noGroups }
  else if (keysOf files).all (fun k => (groupsOf files k).length = numImageSets files) then
    splitLoop km gf limit (keysOf files) (groupsOf files) (List.range (numImageSets files)) [] [] 0
  else { files := [], setNum := 0, error := some .unalignedGroups }

/-- The image set built at a step, defaulting on the (unreachable in a
successful run) error case; used to state the round-trip property. -/
def entryAtD (keys : List String) (groups : String → List ImageRecord) (step : Nat) :
    List ImageRecord :=
  (mkEntry keys groups step).toOption.getD []

/-- The row a member-loop pass computes for one image set once the header is
committed and the fieldmap `fm` is fixed; used to characterize the rows
`save_as_csv_list` writes. -/
def entryRowAux (km : List (String × String)) (gf : String)
    (fm : List (String × String)) :
    Nat → List ImageRecord → List (String × String) →
    Except SplitError (List (String × String))
  | _, [], row => .ok row
  | objectNum, m :: ms, row =>
    match get_object_name km m.groupValue with
    | .error e => .error e
    | .ok _ =>
      match rowFields fm objectNum (fieldsOf gf m) row with
      | .error e => .error e
      | .ok row' => entryRowAux km gf fm (objectNum + 1) ms row'

/-- One row per image set, in order, all computed with the same fixed
fieldmap; the error of the first failing image set otherwise. -/
def rowsFor (km : List (String × String)) (gf : String) (fm : List (String × String)) :
    List (List ImageRecord) → Except SplitError (List (List (String × String)))
  | [] => .ok []
  | e :: es =>
    match entryRowAux km gf fm 0 e [] with
    | .error err => .error err
    | .ok r =>
      match rowsFor km gf fm es with
      | .error err => .error err
      | .ok rs => .ok (r :: rs)

/-- The data rows of a written batch file are exactly one row per image set of
its chunk, in chunk order: the first row is computed by the header-building
pass over the first image set, whose resulting fieldmap `fm` then produces one
row per remaining image set, in order. -/
def rowsGood (km : List (String × String)) (gf : String)
    (chunk : List (List ImageRecord)) (hdr : List String)
    (rows : List (List (String × String))) : Prop :=
  match chunk with
  | [] => False
  | e0 :: es =>
    ∃ r0 fm tl,
      processMembers km gf (fieldnamesOf gf chunk) false 0 e0 [] [] [] = .ok (r0, hdr, fm) ∧
      rowsFor km gf fm es = .ok tl ∧
      rows = r0 :: tl

/-- A well-formed emitted batch file: its contents were fully written and its
data rows correspond one-to-one, in order, to the image sets of its chunk. -/
def GoodFile (km : List (String × String)) (gf : String)
    (f : List (List ImageRecord) × CsvFile) : Prop :=
  ∃ hdr rows, f.2.content = some (hdr, rows) ∧ rows.length = f.1.length ∧
    rowsGood km gf f.1 hdr rows

/-! ## Data model of the merge side (`parcp/__init__.py`) -/

/-- One per-batch result table `results/<index>/<E>.csv`, already split into
its (rstripped) header line and its data rows; each data row is the parsed
`image_index`, `object_index` and the verbatim remainder `rest` of the line
(`line.rstrip().split(',', 2)`). -/
structure BatchTable where
  header : String
  rows : List (Nat × Nat × String)
deriving DecidableEq, Repr

/-- The exceptions `merge_object_results` can raise: a missing batch file
(`IOError` from `open`) or the header-equality `assert`. -/
inductive MergeError where
  | ioError (index : Nat)
  | schemaMismatch (index : Nat)
deriving DecidableEq, Repr

/-- The state of the destination file `results/<E>.csv` after a
`merge_object_results` call: whether `open(merged_csv_path, 'w+')` ran,
the header written (if any), the data rows written, whether
`merged_csv.close()` ran, and the exception that stopped the merge, if any.
The file is opened directly at its final path; there is no temporary file or
rename in the source. -/
structure MergeOutcome where
  fileCreated : Bool
  headerWritten : Option String
  rowsWritten : List (Nat × Nat × String)
  closed : Bool
  error : Option MergeError
deriving DecidableEq, Repr

/-- The `for line in batch_csv` loop: per data row, `object_count += 1`
unconditionally, and `image_count += 1` exactly when the local `image_index`
exceeds `prev_img_count` (which is then updated); emits
`(image_count, object_count, rest)` per row and returns the final counters. -/
def mergeLines : List (Nat × Nat × String) → Nat → Nat → Nat →
    List (Nat × Nat × String) × Nat × Nat
  | [], _, ic, oc => ([], ic, oc)
  | (imageIndex, _, rest) :: lines, prev, ic, oc =>
    let oc' := oc + 1
    let prev' := if prev < imageIndex then imageIndex else prev
    let ic' := if prev < imageIndex then ic + 1 else ic
    let (outTail, icf, ocf) := mergeLines lines prev' ic' oc'
    ((ic', oc', rest) :: outTail, icf, ocf)

/-- The data rows the merger emits for a sequence of batch row lists:
`image_count` and `object_count` are seeded at 0 once and carried across
batches, `prev_img_count` is reset to 0 at the start of each batch. -/
def mergeRowsAux : List (List (Nat × Nat × String)) → Nat → Nat →
    List (Nat × Nat × String)
  | [], _, _ => []
  | b :: bs, ic, oc =>
    let (out, ic', oc') := mergeLines b 0 ic oc
    out ++ mergeRowsAux bs ic' oc'

/-- The merged data rows of a sequence of per-batch row lists (counters seeded
at 0). -/
def mergeRows (bs : List (List (Nat × Nat × String))) : List (Nat × Nat × String) :=
  mergeRowsAux bs 0 0

/-- The `for index in self.result_indexes` loop: open the batch table, check
or store the merged header, and merge the batch's rows; returns the stored
header, the rows written so far, and the exception that stopped the loop, if
any. -/
def mergeIndexes (fs : Nat → Option BatchTable) :
    List Nat → Option String → List (Nat × Nat × String) → Nat → Nat →
    Option String × List (Nat × Nat × String) × Option MergeError
  | [], mh, out, _, _ => (mh, out, none)
  | index :: rest, mh, out, ic, oc =>
    match fs index with
    | none => (mh, out, some (.ioError index))
    | some t =>
      match mh with
      | some h =>
        if t.header = h then
          match mergeLines t.rows 0 ic oc with
          | (outB, ic', oc') => mergeIndexes fs rest (some h) (out ++ outB) ic' oc'
        else (mh, out, some (.schemaMismatch index))
      | none =>
        match mergeLines t.rows 0 ic oc with
        | (outB, ic', oc') => mergeIndexes fs rest (some t.header) (out ++ outB) ic' oc'

/-- `ParallelCellProfiler.merge_object_results`: the reserved name `Image` is
delegated to `merge_image_results`, whose body is empty, before any file is
opened; otherwise the destination file is opened at its final path, the
batches are merged in the order of `indexes`, and the file handle is closed
only when the loop finishes without an exception. -/
def merge_object_results (objectName : String) (indexes : List Nat)
    (fs : Nat → Option BatchTable) : MergeOutcome :=
  if objectName = "Image" then
    { fileCreated := false, headerWritten := none, rowsWritten := [],
      closed := false, error := none }
  else
    match mergeIndexes fs indexes none [] 0 0 with
    | (mh, out, err) =>
      { fileCreated := true, headerWritten := mh, rowsWritten := out,
        closed := err.isNone, error := err }

/-- Python `str.isdigit` (false on the empty string). -/
def str_isdigit (s : String) : Bool := !s.data.isEmpty && s.data.all Char.isDigit

/-- Python `int` on a digit string. -/
def str_toNat (s : String) : Nat := s.data.foldl (fun n c => n * 10 + (c.toNat - 48)) 0

/-- `self.result_indexes = [int(i) for i in os.listdir(results) if i.isdigit()]`
— the integers in directory-enumeration order; the source never sorts them. -/
def result_indexes (listing : List String) : List Nat :=
  (listing.filter str_isdigit).map str_toNat

/-- The ways the index check of `merge_results` can abort: `max([])` raises
`ValueError`, and `assert max(idxs) == len(idxs) - 1` raises on failure. -/
inductive MergeResultsError where
  | emptyMax
  | notContiguous
deriving DecidableEq, Repr

/-- The contiguity check of `merge_results`:
`assert max(self.result_indexes) == len(self.result_indexes) - 1`. -/
def checkIndexes (indexes : List Nat) : Option MergeResultsError :=
  match indexes with
  | [] => some .emptyMax
  | _ :: _ =>
    if indexes.foldl max 0 = indexes.length - 1 then none else some .notContiguous

/-- `ParallelCellProfiler.merge_results`: collect the integer directory names
in enumeration order, run the contiguity assert, then merge every entity type
over those indexes, in that order. -/
def merge_results (listing : List String) (objectNames : List String)
    (fs : Nat → String → Option BatchTable) :
    Except MergeResultsError (List (String × MergeOutcome)) :=
  let idxs := result_indexes listing
  match checkIndexes idxs with
  | some e => .error e
  | none =>
    .ok (objectNames.map fun objectName =>
      (objectName, merge_object_results objectName idxs (fun i => fs i objectName)))

/-! ## Spec-side characterizations (stated in the words of the specification,
to be compared with the source embedding) -/

/-- Stated from the spec's words: the flag of each row of one batch — whether
its local `image_index` strictly exceeds the highest local `image_index` seen
so far within that batch, the high-water mark starting at 0. -/
def highWaterFlags (prev : Nat) : List Nat → List Bool
  | [] => []
  | x :: xs => decide (prev < x) :: highWaterFlags (max prev x) xs

/-- The per-row increment flags of a whole batch sequence, each batch's
high-water mark reset to 0. -/
def mergeFlags (bs : List (List (Nat × Nat × String))) : List Bool :=
  (bs.map fun b => highWaterFlags 0 (b.map fun r => r.1)).flatten

/-- The running totals of a flag sequence starting from `c`. -/
def runningCount (c : Nat) : List Bool → List Nat
  | [] => []
  | b :: rest => (if b then c + 1 else c) :: runningCount (if b then c + 1 else c) rest

/-! ## Concrete inputs used by witnesses and counterexamples -/

/-- Two batch tables with distinct headers, for the schema-mismatch scenarios. -/
def exFs5 : Nat → Option BatchTable
  | 0 => some { header := "H", rows := [(1, 1, "x")] }
  | 1 => some { header := "G", rows := [(1, 1, "y")] }
  | _ => none

/-- Per-index tables tagging which batch each row came from, for the
enumeration-order scenario. -/
def exFs4 : Nat → String → Option BatchTable
  | 0, _ => some { header := "H", rows := [(1, 1, "fromBatch0")] }
  | 1, _ => some { header := "H", rows := [(1, 1, "fromBatch1")] }
  | _, _ => none

/-- Two aligned channels whose group token occurs twice in the first group's
filename: first-occurrence stripping agrees across members, all-occurrence
stripping does not. -/
def filesC3 : List ImageRecord :=
  [{ filename := "aw1w1.png", groupValue := "w1", extra := [] },
   { filename := "aw1w2.png", groupValue := "w2", extra := [] }]

/-- Three records in one mapped channel, for a successful split run. -/
def filesC2 : List ImageRecord :=
  [{ filename := "a_d5.png", groupValue := "d5", extra := [] },
   { filename := "b_d5.png", groupValue := "d5", extra := [] },
   { filename := "c_d5.png", groupValue := "d5", extra := [] }]

/-- A group-key mapping covering the records of `filesC2`. -/
def kmW : List (String × String) := [("d5", "OrigBlue")]

/-- Two aligned channels of two image sets each, with no object-name mapping:
grouping and alignment pass, serialization fails. -/
def filesC2x : List ImageRecord :=
  [{ filename := "a_d5.png", groupValue := "d5", extra := [] },
   { filename := "b_d5.png", groupValue := "d5", extra := [] },
   { filename := "a_d6.png", groupValue := "d6", extra := [] },
   { filename := "b_d6.png", groupValue := "d6", extra := [] }]

/-- Two channel groups of unequal sizes. -/
def filesC6 : List ImageRecord :=
  [{ filename := "a1.png", groupValue := "c1", extra := [] },
   { filename := "b1.png", groupValue := "c2", extra := [] },
   { filename := "b2.png", groupValue := "c2", extra := [] }]

/-! ## Helper lemmas about the merge counters -/

theorem mergeLines_spec (lines : List (Nat × Nat × String)) :
    ∀ prev ic oc,
      (mergeLines lines prev ic oc).1.map (fun r => r.2.1) =
        List.range' (oc + 1) lines.length ∧
      (mergeLines lines prev ic oc).1.map (fun r => r.1) =
        runningCount ic (highWaterFlags prev (lines.map fun r => r.1)) ∧
      (mergeLines lines prev ic oc).1.map (fun r => r.2.2) = lines.map (fun r => r.2.2) ∧
      (mergeLines lines prev ic oc).2.1 =
        ic + (highWaterFlags prev (lines.map fun r => r.1)).count true ∧
      (mergeLines lines prev ic oc).2.2 = oc + lines.length := by
  induction lines with
  | nil => intro prev ic oc; simp [mergeLines, highWaterFlags, runningCount]
  | cons l ls ih =>
    intro prev ic oc
    obtain ⟨ii, oi, rest⟩ := l
    have hmax : (if prev < ii then ii else prev) = max prev ii := by
      by_cases hp : prev < ii
      · simp [hp, max_eq_right hp.le]
      · simp [hp, max_eq_left (Nat.not_lt.1 hp)]
    rcases hrec : mergeLines ls (max prev ii) (if prev < ii then ic + 1 else ic) (oc + 1)
      with ⟨outTail, icf, ocf⟩
    obtain ⟨h1, h2, h3, h4, h5⟩ := ih (max prev ii) (if prev < ii then ic + 1 else ic) (oc + 1)
    rw [hrec] at h1 h2 h3 h4 h5
    dsimp only at h1 h2 h3 h4 h5
    simp only [mergeLines, hmax, hrec, List.map_cons, List.length_cons, highWaterFlags]
    refine ⟨?_, ?_, ?_, ?_, ?_⟩
    · rw [h1, List.range'_succ]
    · rw [h2, runningCount]
      by_cases hp : prev < ii
      · simp [hp]
      · simp [hp]
    · rw [h3]
    · rw [h4, List.count_cons]
      by_cases hp : prev < ii
      · simp only [hp, if_true, decide_eq_true_eq]
        simp
        omega
      · simp only [hp, if_false, decide_eq_true_eq]
        simp [hp]
    · rw [h5]; omega

theorem runningCount_append (xs ys : List Bool) :
    ∀ c, runningCount c (xs ++ ys) =
      runningCount c xs ++ runningCount (c + xs.count true) ys := by
  induction xs with
  | nil => intro c; simp [runningCount]
  | cons b bs ih =>
    intro c
    have hl : runningCount c ((b :: bs) ++ ys) =
        (if b then c + 1 else c) :: runningCount (if b then c + 1 else c) (bs ++ ys) := rfl
    have hr : runningCount c (b :: bs) =
        (if b then c + 1 else c) :: runningCount (if b then c + 1 else c) bs := rfl
    rw [hl, hr, ih]
    cases b
    · simp [List.count_cons]
    · have he : c + 1 + bs.count true = c + (bs.count true + 1) := by omega
      simp [List.count_cons, he]

theorem runningCount_eq_take (flags : List Bool) :
    ∀ c, runningCount c flags =
      (List.range flags.length).map (fun j => c + (flags.take (j + 1)).count true) := by
  induction flags with
  | nil => intro c; simp [runningCount]
  | cons b bs ih =>
    intro c
    simp only [runningCount, List.length_cons, List.range_succ_eq_map, List.map_cons,
      List.map_map]
    congr 1
    · cases b <;> simp [List.count_cons]
    · rw [ih (if b then c + 1 else c)]
      apply List.map_congr_left
      intro j hj
      simp only [Function.comp_apply, List.take_succ_cons, List.count_cons]
      cases b
      · simp
      · simp
        omega

theorem mergeRowsAux_spec (bs : List (List (Nat × Nat × String))) :
    ∀ ic oc,
      (mergeRowsAux bs ic oc).map (fun r => r.2.1) = List.range' (oc + 1) bs.flatten.length ∧
      (mergeRowsAux bs ic oc).map (fun r => r.1) = runningCount ic (mergeFlags bs) ∧
      (mergeRowsAux bs ic oc).map (fun r => r.2.2) = bs.flatten.map (fun r => r.2.2) := by
  induction bs with
  | nil => intro ic oc; simp [mergeRowsAux, mergeFlags, runningCount]
  | cons b rest ih =>
    intro ic oc
    rcases hrec : mergeLines b 0 ic oc with ⟨out, ic', oc'⟩
    obtain ⟨m1, m2, m3, m4, m5⟩ := mergeLines_spec b 0 ic oc
    rw [hrec] at m1 m2 m3 m4 m5
    dsimp only at m1 m2 m3 m4 m5
    obtain ⟨r1, r2, r3⟩ := ih ic' oc'
    simp only [mergeRowsAux, hrec, List.map_append, List.flatten_cons, mergeFlags,
      List.map_cons]
    refine ⟨?_, ?_, ?_⟩
    · rw [m1, r1, m5, List.length_append]
      have := List.range'_append (oc + 1) b.length rest.flatten.length 1
      simp only [one_mul] at this
      rw [Nat.add_comm b.length rest.flatten.length, ← this]
      congr 2
      omega
    · rw [m2, r2, m4]
      have := runningCount_append (highWaterFlags 0 (b.map fun r => r.1))
        ((rest.map fun b => highWaterFlags 0 (b.map fun r => r.1)).flatten) ic
      simp only [mergeFlags] at this ⊢
      rw [← this]
    · rw [m3, r3]

/-- C1: for every sequence of per-batch result tables, the merger's
`object_count` takes the values 1, 2, ... over all emitted rows across batch
boundaries, its `image_count` at every row equals the number of rows so far
whose local image index strictly exceeded the batch-local high-water mark
(reset per batch, counters never reset), the remainder of every row is passed
through in order, and on the concrete example (batch 0 local image indices
1,1,2 and batch 1 local indices 1,2) the emitted
`(image_count, object_count)` pairs are (1,1),(1,2),(2,3),(3,4),(4,5). -/
theorem claim1_merge_counters (bs : List (List (Nat × Nat × String))) :
    (mergeRows bs).map (fun r => r.2.1) = List.range' 1 bs.flatten.length ∧
    (mergeRows bs).map (fun r => r.1) =
      (List.range (mergeFlags bs).length).map
        (fun j => ((mergeFlags bs).take (j + 1)).count true) ∧
    (mergeRows bs).map (fun r => r.2.2) = bs.flatten.map (fun r => r.2.2) ∧
    mergeRows [[(1, 1, "a"), (1, 2, "b"), (2, 1, "c")], [(1, 1, "d"), (2, 1, "e")]] =
      [(1, 1, "a"), (1, 2, "b"), (2, 3, "c"), (3, 4, "d"), (4, 5, "e")] := by
  obtain ⟨h1, h2, h3⟩ := mergeRowsAux_spec bs 0 0
  refine ⟨h1, ?_, h3, by decide⟩
  rw [mergeRows, h2, runningCount_eq_take]
  simp

/-- C10: for the reserved entity name `Image`, `merge_object_results` returns
without error, creates no output file, writes nothing and closes nothing: the
delegated `merge_image_results` has an empty body and the early return happens
before the merged file would be opened. -/
theorem claim10_image_merge_noop (indexes : List Nat) (fs : Nat → Option BatchTable) :
    merge_object_results "Image" indexes fs =
      { fileCreated := false, headerWritten := none, rowsWritten := [],
        closed := false, error := none } := rfl

/-- C4 (refuting the claim as stated): `merge_results` keeps the result
indexes in directory-enumeration order and never sorts them, so the
enumeration ["1", "0"] passes the contiguity assert and the batches are merged
with batch 1's rows written before batch 0's rows. -/
theorem claim4_unordered_merge :
    result_indexes ["1", "0"] = [1, 0] ∧
    checkIndexes (result_indexes ["1", "0"]) = none ∧
    result_indexes ["1", "0"] ≠ [0, 1] ∧
    merge_results ["1", "0"] ["Cells"] exFs4 =
      .ok [("Cells",
        { fileCreated := true, headerWritten := some "H",
          rowsWritten := [(1, 1, "fromBatch1"), (2, 2, "fromBatch0")],
          closed := true, error := none })] := by
  refine ⟨by decide, by decide, by decide, ?_⟩
  rfl

/-- C9 (counterexample): the results listing ["00", "0", "1", "3"] — four
directories whose digit names parse to 0, 0, 1, 3 — passes the contiguity
check `max == len - 1` even though index 2 is missing while index 3 is
present, so a gap in the zero-based range goes undetected. -/
theorem claim9_counterexample :
    result_indexes ["00", "0", "1", "3"] = [0, 0, 1, 3] ∧
    checkIndexes (result_indexes ["00", "0", "1", "3"]) = none ∧
    3 ∈ result_indexes ["00", "0", "1", "3"] ∧
    2 ∉ result_indexes ["00", "0", "1", "3"] := by
  refine ⟨by decide, by decide, by decide, by decide⟩

/-- C3 (counterexample): two aligned channels "w1"/"w2" whose shared token
occurs twice in the first group's filename.  Stripping each member's group
value at its first occurrence yields the identical base "aw1.png" for every
member, yet `split_images` raises the misalignment error, because the
reference base of the first group is computed with all occurrences removed
("a.png"), not the first occurrence only. -/
theorem claim3_counterexample :
    stripFirstS "w1" "aw1w1.png" = "aw1.png" ∧
    stripFirstS "w2" "aw1w2.png" = "aw1.png" ∧
    (split_images [] "Channel" 10 filesC3).error =
      some (.misalignedImageSet "a.png" "aw1w1.png") ∧
    (split_images [] "Channel" 10 filesC3).files = [] := by
  refine ⟨by decide, by decide, by decide, by decide⟩

/-- C7 (counterexample): on a schema mismatch at batch 1 the merge stops with
the destination file created at its final path, a header and batch 0's data
rows already written into it, and the file handle never closed — the partial
merged file is left in place looking like a complete one. -/
theorem claim7_counterexample :
    (merge_object_results "Cells" [0, 1] exFs5).error =
      some (.schemaMismatch 1) ∧
    (merge_object_results "Cells" [0, 1] exFs5).closed = false ∧
    (merge_object_results "Cells" [0, 1] exFs5).fileCreated = true ∧
    (merge_object_results "Cells" [0, 1] exFs5).rowsWritten = [(1, 1, "x")] ∧
    (merge_object_results "Cells" [0, 1] exFs5).headerWritten = some "H" := by
  refine ⟨by decide, by decide, by decide, by decide, by decide⟩

/-- C2 (counterexample): four records forming two aligned channels of two
image sets each, with an empty group-key mapping and batch size 1.  Grouping
and alignment both pass, but serialization of the first batch raises the
unmapped-group-key error, so the run emits one (empty) batch file and stops
with `set_num = 1`, although `ceil(total_image_sets / limit) = 2`. -/
theorem claim2_counterexample :
    (split_images [] "Channel" 1 filesC2x).error = some (.unmappedGroupKey "d5") ∧
    (split_images [] "Channel" 1 filesC2x).files.length = 1 ∧
    (split_images [] "Channel" 1 filesC2x).setNum = 1 ∧
    numImageSets filesC2x = 2 ∧
    (numImageSets filesC2x + 1 - 1) / 1 = 2 := by
  refine ⟨by decide, by decide, by decide, by decide, by decide⟩

/-! ## Helper lemmas about the merge loop with headers -/

theorem mergeIndexes_ok (fs : Nat → Option BatchTable) (is : List Nat) (h : String) :
    ∀ acc ic oc,
      (∀ i ∈ is, ∃ t, fs i = some t ∧ t.header = h) →
      mergeIndexes fs is (some h) acc ic oc =
        (some h,
         acc ++ mergeRowsAux (is.map fun i => ((fs i).getD { header := "", rows := [] }).rows) ic oc,
         none) := by
  induction is with
  | nil => intro acc ic oc _; simp [mergeIndexes, mergeRowsAux]
  | cons i rest ih =>
    intro acc ic oc hall
    obtain ⟨t, hfs, hhd⟩ := hall i (by simp)
    rcases hlines : mergeLines t.rows 0 ic oc with ⟨outB, ic', oc'⟩
    simp only [mergeIndexes, hfs, hhd, if_true, hlines, List.map_cons, mergeRowsAux,
      Option.getD_some]
    rw [ih (acc ++ outB) ic' oc' (fun j hj => hall j (by simp [hj]))]
    simp [List.append_assoc]

theorem mergeIndexes_mismatch (fs : Nat → Option BatchTable) (is1 : List Nat) (k : Nat)
    (is2 : List Nat) (h : String) (tk : BatchTable) :
    ∀ acc ic oc,
      (∀ i ∈ is1, ∃ t, fs i = some t ∧ t.header = h) →
      fs k = some tk → tk.header ≠ h →
      mergeIndexes fs (is1 ++ k :: is2) (some h) acc ic oc =
        (some h,
         acc ++ mergeRowsAux (is1.map fun i => ((fs i).getD { header := "", rows := [] }).rows) ic oc,
         some (.schemaMismatch k)) := by
  induction is1 with
  | nil =>
    intro acc ic oc _ hk hne
    simp [mergeIndexes, hk, hne, mergeRowsAux]
  | cons i rest ih =>
    intro acc ic oc hall hk hne
    obtain ⟨t, hfs, hhd⟩ := hall i (by simp)
    rcases hlines : mergeLines t.rows 0 ic oc with ⟨outB, ic', oc'⟩
    simp only [List.cons_append, mergeIndexes, hfs, hhd, if_true, hlines, List.map_cons,
      mergeRowsAux, Option.getD_some, List.append_eq]
    rw [ih (acc ++ outB) ic' oc' (fun j hj => hall j (by simp [hj])) hk hne]
    simp [List.append_assoc]

/-- C5: when the batches at the indexes before `k` all carry the header of the
first batch and the batch at `k` carries a different header, the merge fails
with the schema-mismatch error at `k`: the stored merged header is the first
batch's header and the rows written are exactly the merged rows of the batches
before `k` — no data row from batch `k` is written. -/
theorem claim5_schema_mismatch (objectName : String) (hobj : objectName ≠ "Image")
    (i0 : Nat) (is1 : List Nat) (k : Nat) (is2 : List Nat)
    (fs : Nat → Option BatchTable) (t0 tk : BatchTable)
    (h0 : fs i0 = some t0)
    (h1 : ∀ i ∈ is1, ∃ t, fs i = some t ∧ t.header = t0.header)
    (hk : fs k = some tk) (hne : tk.header ≠ t0.header) :
    merge_object_results objectName (i0 :: (is1 ++ k :: is2)) fs =
      { fileCreated := true,
        headerWritten := some t0.header,
        rowsWritten :=
          mergeRowsAux ((i0 :: is1).map fun i => ((fs i).getD { header := "", rows := [] }).rows) 0 0,
        closed := false,
        error := some (.schemaMismatch k) } := by
  rcases hlines : mergeLines t0.rows 0 0 0 with ⟨outB, ic', oc'⟩
  simp only [merge_object_results, hobj, if_false, mergeIndexes, h0, hlines, List.map_cons,
    mergeRowsAux, Option.getD_some]
  rw [mergeIndexes_mismatch fs is1 k is2 t0.header tk ([] ++ outB) ic' oc' h1 hk hne]
  simp

theorem claim5_schema_mismatch_witness :
    ("Cells" : String) ≠ "Image" ∧
    merge_object_results "Cells" [0, 1] exFs5 =
      { fileCreated := true, headerWritten := some "H",
        rowsWritten := [(1, 1, "x")], closed := false,
        error := some (.schemaMismatch 1) } := by
  refine ⟨by decide, ?_⟩
  have h := claim5_schema_mismatch "Cells" (by decide) 0 [] 1 []
    exFs5 { header := "H", rows := [(1, 1, "x")] } { header := "G", rows := [(1, 1, "y")] }
    rfl (by simp) rfl (by decide)
  exact h.trans (by rfl)

/-- C7 (amended): `merge_object_results` opens the destination file at its
final path for every non-`Image` entity (no temporary file, no rename), and
the file handle is closed exactly when the merge finishes without an error —
on every error exit the handle stays open and the partial content stays at
the destination. -/
theorem claim7_amended (objectName : String) (hobj : objectName ≠ "Image")
    (indexes : List Nat) (fs : Nat → Option BatchTable) :
    (merge_object_results objectName indexes fs).fileCreated = true ∧
    ((merge_object_results objectName indexes fs).closed = true ↔
      (merge_object_results objectName indexes fs).error = none) := by
  rcases h : mergeIndexes fs indexes none [] 0 0 with ⟨mh, out, err⟩
  simp only [merge_object_results, hobj, if_false, h]
  cases err <;> simp

theorem claim7_amended_witness :
    ("Cells" : String) ≠ "Image" ∧
    ((merge_object_results "Cells" [0, 1] exFs5).fileCreated = true ∧
     ((merge_object_results "Cells" [0, 1] exFs5).closed = true ↔
       (merge_object_results "Cells" [0, 1] exFs5).error = none)) :=
  ⟨by decide, claim7_amended "Cells" (by decide) [0, 1] exFs5⟩

/-! ## Helper lemmas about `foldl max` for the contiguity check -/

theorem seed_le_foldl_max (l : List Nat) : ∀ s, s ≤ l.foldl max s := by
  induction l with
  | nil => intro s; simp
  | cons x xs ih =>
    intro s
    rw [List.foldl_cons]
    exact le_trans (le_max_left s x) (ih (max s x))

theorem le_foldl_max (l : List Nat) : ∀ s a, a ∈ l → a ≤ l.foldl max s := by
  induction l with
  | nil => intro s a h; cases h
  | cons x xs ih =>
    intro s a h
    rw [List.foldl_cons]
    rcases List.mem_cons.1 h with rfl | h
    · exact le_trans (le_max_right s a) (seed_le_foldl_max xs (max s a))
    · exact ih (max s x) a h

theorem foldl_max_le (l : List Nat) : ∀ s b, s ≤ b → (∀ x ∈ l, x ≤ b) → l.foldl max s ≤ b := by
  induction l with
  | nil => intro s b hs _; simpa using hs
  | cons x xs ih =>
    intro s b hs hall
    rw [List.foldl_cons]
    exact ih (max s x) b (max_le hs (hall x (by simp))) (fun y hy => hall y (by simp [hy]))

theorem checkIndexes_nodup_iff (idxs : List Nat) (hnd : idxs.Nodup) (hne : idxs ≠ []) :
    checkIndexes idxs = none ↔ ∀ m, m ∈ idxs ↔ m < idxs.length := by
  rcases idxs with _ | ⟨x, xs⟩
  · cases hne rfl
  · set l : List Nat := x :: xs with hl
    have hlen : 1 ≤ l.length := by simp [hl]
    by_cases hc : l.foldl max 0 = l.length - 1
    · simp only [checkIndexes, hc, if_true]
      have hsub : l.toFinset ⊆ Finset.range l.length := by
        intro a ha
        have : a ≤ l.foldl max 0 := le_foldl_max l 0 a (List.mem_toFinset.1 ha)
        rw [hc] at this
        exact Finset.mem_range.2 (by omega)
      have hcard : (Finset.range l.length).card ≤ l.toFinset.card := by
        rw [Finset.card_range, List.toFinset_card_of_nodup hnd]
      have heq : l.toFinset = Finset.range l.length :=
        Finset.eq_of_subset_of_card_le hsub hcard
      simp only [true_iff]
      intro m
      constructor
      · intro hm
        have : m ∈ Finset.range l.length := heq ▸ List.mem_toFinset.2 hm
        exact Finset.mem_range.1 this
      · intro hm
        have : m ∈ l.toFinset := heq ▸ Finset.mem_range.2 hm
        exact List.mem_toFinset.1 this
    · simp only [checkIndexes, hc, if_false]
      constructor
      · intro h; cases h
      · intro hall
        exfalso
        apply hc
        have hmem : l.length - 1 ∈ l := (hall (l.length - 1)).2 (by omega)
        have h1 : l.length - 1 ≤ l.foldl max 0 := le_foldl_max l 0 _ hmem
        have h2 : l.foldl max 0 ≤ l.length - 1 :=
          foldl_max_le l 0 (l.length - 1) (by omega)
            (fun y hy => by have := (hall y).1 hy; omega)
        omega

/-- C9 (amended): when the digit-named directories map to pairwise distinct
integers, the contiguity assert of `merge_results`
(`max(result_indexes) == len(result_indexes) - 1`) passes exactly when those
integers are the contiguous zero-based range `[0, N-1]`; so under
distinctness any missing index is detected and fatal (while with duplicated
integer values, as in `claim9_counterexample`, a gap can pass). -/
theorem claim9_amended (listing : List String)
    (hnd : (result_indexes listing).Nodup) (hne : result_indexes listing ≠ []) :
    checkIndexes (result_indexes listing) = none ↔
      ∀ m, m ∈ result_indexes listing ↔ m < (result_indexes listing).length :=
  checkIndexes_nodup_iff _ hnd hne

theorem claim9_amended_witness :
    (result_indexes ["1", "0"]).Nodup ∧ result_indexes ["1", "0"] ≠ [] ∧
    (checkIndexes (result_indexes ["1", "0"]) = none ↔
      ∀ m, m ∈ result_indexes ["1", "0"] ↔ m < (result_indexes ["1", "0"]).length) :=
  ⟨by decide, by decide, claim9_amended ["1", "0"] (by decide) (by decide)⟩

/-! ## Helper lemmas about the alignment check -/

theorem mkEntryLoop_ok_iff (shared : String) (groups : String → List ImageRecord) (step : Nat) :
    ∀ (keys : List String) (acc : List ImageRecord),
      (∃ e, mkEntryLoop shared groups step keys acc = .ok e) ↔
        ∀ k ∈ keys,
          stripFirstS (memberAt groups k step).groupValue (memberAt groups k step).filename =
            shared := by
  intro keys
  induction keys with
  | nil =>
    intro acc
    constructor
    · intro _ k hk; cases hk
    · intro _; exact ⟨acc, rfl⟩
  | cons k ks ih =>
    intro acc
    by_cases heq :
        stripFirstS (memberAt groups k step).groupValue (memberAt groups k step).filename = shared
    · simp only [mkEntryLoop, heq, if_true]
      rw [ih (acc ++ [memberAt groups k step])]
      simp [heq]
    · simp only [mkEntryLoop, heq, if_false]
      constructor
      · rintro ⟨e, he⟩; cases he
      · intro hall; exact absurd (hall k (by simp)) heq

/-- C3 (amended): at every position the reference base is the first group's
member filename with ALL occurrences of its group-by value removed, while
every member of the position (the first group's member included) is compared
through its filename with the group-by value removed once, at its first
occurrence; the position's image set is built exactly when every such
first-occurrence base equals the all-occurrence reference base, and otherwise
the run fails with the misaligned-image-set error. -/
theorem claim3_amended_strip (k0 : String) (ks : List String)
    (groups : String → List ImageRecord) (step : Nat) :
    (∃ e, mkEntry (k0 :: ks) groups step = .ok e) ↔
      ∀ k ∈ k0 :: ks,
        stripFirstS (memberAt groups k step).groupValue (memberAt groups k step).filename =
          stripAllS (memberAt groups k0 step).groupValue (memberAt groups k0 step).filename := by
  have hshared : sharedImageName groups k0 step =
      stripAllS (memberAt groups k0 step).groupValue (memberAt groups k0 step).filename := rfl
  rw [← hshared]
  exact mkEntryLoop_ok_iff (sharedImageName groups k0 step) groups step (k0 :: ks) []

/-- C6: whenever two group keys of the run have channel groups of different
cardinality, `split_images` fails with the unaligned-groups error and emits
nothing: no batch file is written and `set_num` stays 0. -/
theorem claim6_unaligned_groups (km : List (String × String)) (gf : String) (limit : Nat)
    (files : List ImageRecord) (k1 k2 : String)
    (h1 : k1 ∈ keysOf files) (h2 : k2 ∈ keysOf files)
    (hne : (groupsOf files k1).length ≠ (groupsOf files k2).length) :
    split_images km gf limit files =
      { files := [], setNum := 0, error := some .unalignedGroups } := by
  have hfe : ¬ files.length = 0 := by
    intro h
    rw [List.length_eq_zero] at h
    subst h
    simp [keysOf, sortedFilesOf, sortBy, dedupFirstAux] at h1
  have hk : ¬ (keysOf files).length = 0 := by
    intro h
    rw [List.length_eq_zero] at h
    rw [h] at h1
    cases h1
  have hall : (keysOf files).all (fun k => (groupsOf files k).length = numImageSets files) = false := by
    by_contra hcon
    have htrue : (keysOf files).all
        (fun k => (groupsOf files k).length = numImageSets files) = true := by
      revert hcon
      cases (keysOf files).all (fun k => (groupsOf files k).length = numImageSets files) <;> simp
    have hmem := List.all_eq_true.1 htrue
    have e1 := hmem k1 h1
    have e2 := hmem k2 h2
    simp only [decide_eq_true_eq] at e1 e2
    exact hne (e1.trans e2.symm)
  simp [split_images, hfe, hk, hall]

theorem claim6_unaligned_groups_witness :
    "c1" ∈ keysOf filesC6 ∧ "c2" ∈ keysOf filesC6 ∧
    (groupsOf filesC6 "c1").length ≠ (groupsOf filesC6 "c2").length ∧
    split_images [] "Channel" 10 filesC6 =
      { files := [], setNum := 0, error := some .unalignedGroups } :=
  ⟨by decide, by decide, by decide,
    claim6_unaligned_groups [] "Channel" 10 filesC6 "c1" "c2" (by decide) (by decide) (by decide)⟩

/-! ## Helper lemmas about the batch-slicing loop -/

theorem splitLoop_count (km : List (String × String)) (gf : String) (limit : Nat)
    (keys : List String) (groups : String → List ImageRecord) (hl : 0 < limit) :
    ∀ (steps : List Nat) (imageSet : List (List ImageRecord))
      (files : List (List (List ImageRecord) × CsvFile)) (setNum : Nat),
      imageSet.length < limit →
      (splitLoop km gf limit keys groups steps imageSet files setNum).error = none →
      (splitLoop km gf limit keys groups steps imageSet files setNum).files.length =
          files.length + (imageSet.length + steps.length + limit - 1) / limit ∧
      (splitLoop km gf limit keys groups steps imageSet files setNum).setNum =
          setNum + (imageSet.length + steps.length + limit - 1) / limit ∧
      (splitLoop km gf limit keys groups steps imageSet files setNum).files.map
            (fun f => f.2.name) =
          files.map (fun f => f.2.name) ++
            (List.range' setNum ((imageSet.length + steps.length + limit - 1) / limit)).map
              csvName ∧
      (∀ f ∈ (splitLoop km gf limit keys groups steps imageSet files setNum).files,
        f ∈ files ∨ (1 ≤ f.1.length ∧ f.1.length ≤ limit)) := by
  intro steps
  induction steps with
  | nil =>
    intro imageSet files setNum hinv hok
    simp only [List.length_nil, Nat.add_zero]
    by_cases hcs : imageSet.length > 0
    · rcases hsave : save_as_csv_list km gf imageSet with e' | pr
      · have hout : splitLoop km gf limit keys groups [] imageSet files setNum =
            { files := files ++ [(imageSet, { name := csvName setNum, content := none })],
              setNum := setNum + 1, error := some e' } := by
          simp [splitLoop, hcs, flushSet, hsave]
        rw [hout] at hok
        simp at hok
      · obtain ⟨hdr, rows⟩ := pr
        have hout : splitLoop km gf limit keys groups [] imageSet files setNum =
            { files := files ++
                [(imageSet, { name := csvName setNum, content := some (hdr, rows) })],
              setNum := setNum + 1, error := none } := by
          simp [splitLoop, hcs, flushSet, hsave]
        rw [hout]
        have hdiv : (imageSet.length + limit - 1) / limit = 1 :=
          Nat.div_eq_of_lt_le (by omega) (by omega)
        refine ⟨by simp [hdiv], by simp [hdiv], by simp [hdiv, List.range'], ?_⟩
        intro f hf
        rcases List.mem_append.1 hf with h | h
        · exact Or.inl h
        · simp only [List.mem_singleton] at h
          subst h
          refine Or.inr ⟨?_, ?_⟩
          · dsimp only
            omega
          · dsimp only
            omega
    · have hout : splitLoop km gf limit keys groups [] imageSet files setNum =
          { files := files, setNum := setNum, error := none } := by
        simp [splitLoop, hcs]
      rw [hout]
      have hdiv : (imageSet.length + limit - 1) / limit = 0 := Nat.div_eq_of_lt (by omega)
      exact ⟨by simp [hdiv], by simp [hdiv], by simp [hdiv], fun f hf => Or.inl hf⟩
  | cons step steps ih =>
    intro imageSet files setNum hinv hok
    simp only [List.length_cons]
    rcases hm : mkEntry keys groups step with e' | entry
    · have hout : splitLoop km gf limit keys groups (step :: steps) imageSet files setNum =
          { files := files, setNum := setNum, error := some e' } := by
        simp [splitLoop, hm]
      rw [hout] at hok
      simp at hok
    · by_cases hlim : limit ≤ imageSet.length + 1
      · have hlen : imageSet.length + 1 = limit := by omega
        rcases hsave : save_as_csv_list km gf (imageSet ++ [entry]) with e' | pr
        · have hout : splitLoop km gf limit keys groups (step :: steps) imageSet files setNum =
              { files := files ++
                  [(imageSet ++ [entry], { name := csvName setNum, content := none })],
                setNum := setNum + 1, error := some e' } := by
            simp [splitLoop, hm, hlim, flushSet, hsave]
          rw [hout] at hok
          simp at hok
        · obtain ⟨hdr, rows⟩ := pr
          have hout : splitLoop km gf limit keys groups (step :: steps) imageSet files setNum =
              splitLoop km gf limit keys groups steps []
                (files ++
                  [(imageSet ++ [entry],
                    { name := csvName setNum, content := some (hdr, rows) })])
                (setNum + 1) := by
            simp [splitLoop, hm, hlim, flushSet, hsave]
          rw [hout] at hok ⊢
          obtain ⟨c1, c2, c3, c4⟩ := ih [] _ (setNum + 1) (by simpa using hl) hok
          simp only [List.length_nil, Nat.zero_add] at c1 c2 c3
          have harith : imageSet.length + (steps.length + 1) + limit - 1 =
              steps.length + limit - 1 + limit := by omega
          rw [harith, Nat.add_div_right _ hl]
          refine ⟨?_, ?_, ?_, ?_⟩
          · rw [c1]
            simp only [List.length_append, List.length_singleton]
            omega
          · rw [c2]
            omega
          · rw [c3, List.range'_succ]
            simp
          · intro f hf
            rcases c4 f hf with h | h
            · rcases List.mem_append.1 h with h' | h'
              · exact Or.inl h'
              · simp only [List.mem_singleton] at h'
                subst h'
                refine Or.inr ⟨?_, ?_⟩
                · dsimp only
                  simp
                · dsimp only
                  simp only [List.length_append, List.length_singleton]
                  omega
            · exact Or.inr h
      · have hout : splitLoop km gf limit keys groups (step :: steps) imageSet files setNum =
            splitLoop km gf limit keys groups steps (imageSet ++ [entry]) files setNum := by
          simp [splitLoop, hm, hlim]
        rw [hout] at hok ⊢
        have hinv' : (imageSet ++ [entry]).length < limit := by
          simp only [List.length_append, List.length_singleton]
          omega
        obtain ⟨c1, c2, c3, c4⟩ := ih (imageSet ++ [entry]) files setNum hinv' hok
        simp only [List.length_append, List.length_singleton] at c1 c2 c3
        have hnum : imageSet.length + (steps.length + 1) + limit - 1 =
            imageSet.length + 1 + steps.length + limit - 1 := by omega
        rw [hnum]
        exact ⟨c1, c2, c3, c4⟩

/-- C2 (amended): for every run of `split_images` from a fresh object that
finishes without an exception (grouping, alignment and per-batch
serialization all pass) with a positive batch-size limit, the number of
emitted batch files is exactly `ceil(total_image_sets / limit)`, the final
`set_num` equals that count, the files are named with the consecutive
zero-based set numbers 0, 1, ... (no reuse, no gaps), and every batch holds
between 1 and `limit` image sets. -/
theorem claim2_batch_count (km : List (String × String)) (gf : String) (limit : Nat)
    (files : List ImageRecord) (hl : 0 < limit)
    (hok : (split_images km gf limit files).error = none) :
    (split_images km gf limit files).files.length =
        (numImageSets files + limit - 1) / limit ∧
    (split_images km gf limit files).setNum =
        (split_images km gf limit files).files.length ∧
    (split_images km gf limit files).files.map (fun f => f.2.name) =
        (List.range ((numImageSets files + limit - 1) / limit)).map csvName ∧
    ∀ f ∈ (split_images km gf limit files).files, 1 ≤ f.1.length ∧ f.1.length ≤ limit := by
  have h0 : ¬ files.length = 0 := by
    intro h
    simp [split_images, h] at hok
  have h1 : ¬ (keysOf files).length = 0 := by
    intro h
    simp [split_images, h0, h] at hok
  have h2 : (keysOf files).all
      (fun k => (groupsOf files k).length = numImageSets files) = true := by
    by_contra h
    have hfalse : (keysOf files).all
        (fun k => (groupsOf files k).length = numImageSets files) = false := by
      revert h
      cases (keysOf files).all (fun k => (groupsOf files k).length = numImageSets files) <;> simp
    simp [split_images, h0, h1, hfalse] at hok
  have hout : split_images km gf limit files =
      splitLoop km gf limit (keysOf files) (groupsOf files)
        (List.range (numImageSets files)) [] [] 0 := by
    simp [split_images, h0, h1, h2]
  rw [hout] at hok ⊢
  obtain ⟨c1, c2, c3, c4⟩ := splitLoop_count km gf limit (keysOf files) (groupsOf files) hl
    (List.range (numImageSets files)) [] [] 0 (by simpa using hl) hok
  simp only [List.length_nil, List.length_range, Nat.zero_add] at c1 c2 c3
  refine ⟨?_, ?_, ?_, ?_⟩
  · rw [c1]
  · rw [c2, c1]
  · rw [c3]
    simp [List.range_eq_range']
  · intro f hf
    rcases c4 f hf with h | h
    · cases h
    · exact h

theorem claim2_batch_count_witness :
    0 < 2 ∧ (split_images kmW "Channel" 2 filesC2).error = none ∧
    ((split_images kmW "Channel" 2 filesC2).files.length =
        (numImageSets filesC2 + 2 - 1) / 2 ∧
     (split_images kmW "Channel" 2 filesC2).setNum =
        (split_images kmW "Channel" 2 filesC2).files.length ∧
     (split_images kmW "Channel" 2 filesC2).files.map (fun f => f.2.name) =
        (List.range ((numImageSets filesC2 + 2 - 1) / 2)).map csvName ∧
     ∀ f ∈ (split_images kmW "Channel" 2 filesC2).files,
       1 ≤ f.1.length ∧ f.1.length ≤ 2) :=
  ⟨by decide, by decide, claim2_batch_count kmW "Channel" 2 filesC2 (by decide) (by decide)⟩

/-! ## Helper lemmas about the serialization of one batch -/

theorem processMembers_true (km : List (String × String)) (gf : String)
    (fieldnames : List String) (ms : List ImageRecord) :
    ∀ (objectNum : Nat) (row : List (String × String)) (header : List String)
      (fieldmap : List (String × String)),
      processMembers km gf fieldnames true objectNum ms row header fieldmap =
        (entryRowAux km gf fieldmap objectNum ms row).map (fun r => (r, header, fieldmap)) := by
  induction ms with
  | nil => intro n row header fm; rfl
  | cons m ms ih =>
    intro n row header fm
    simp only [processMembers, entryRowAux]
    cases get_object_name km m.groupValue with
    | error e => rfl
    | ok objectname =>
      simp only [if_true]
      cases rowFields fm n (fieldsOf gf m) row with
      | error e => rfl
      | ok row' => exact ih (n + 1) row' header fm

theorem saveEntries_true (km : List (String × String)) (gf : String)
    (fieldnames : List String) (es : List (List ImageRecord)) :
    ∀ (header : List String) (fieldmap : List (String × String))
      (rows : List (List (String × String))) (hdr' : List String)
      (rows' : List (List (String × String))),
      saveEntries km gf fieldnames es true header fieldmap rows = .ok (hdr', rows') →
      hdr' = header ∧
      ∃ tl, rowsFor km gf fieldmap es = .ok tl ∧ rows' = rows ++ tl := by
  induction es with
  | nil =>
    intro header fm rows hdr' rows' h
    cases h
    exact ⟨rfl, [], rfl, by simp⟩
  | cons e es ih =>
    intro header fm rows hdr' rows' h
    simp only [saveEntries, processMembers_true] at h
    cases hrow : entryRowAux km gf fm 0 e [] with
    | error err =>
      rw [hrow] at h
      simp only [Except.map] at h
      cases h
    | ok r =>
      rw [hrow] at h
      simp only [Except.map] at h
      obtain ⟨h1, tl, h2, h3⟩ := ih header fm (rows ++ [r]) hdr' rows' h
      refine ⟨h1, r :: tl, ?_, ?_⟩
      · simp only [rowsFor, hrow, h2]
      · rw [h3]
        simp

theorem rowsFor_length (km : List (String × String)) (gf : String)
    (fm : List (String × String)) :
    ∀ (es : List (List ImageRecord)) (tl : List (List (String × String))),
      rowsFor km gf fm es = .ok tl → tl.length = es.length := by
  intro es
  induction es with
  | nil => intro tl h; cases h; rfl
  | cons e es ih =>
    intro tl h
    simp only [rowsFor] at h
    cases h1 : entryRowAux km gf fm 0 e [] with
    | error err => rw [h1] at h; cases h
    | ok r =>
      rw [h1] at h
      cases h2 : rowsFor km gf fm es with
      | error err => rw [h2] at h; cases h
      | ok rs =>
        rw [h2] at h
        cases h
        simp [ih rs h2]

theorem save_ok_rowsGood (km : List (String × String)) (gf : String)
    (e0 : List ImageRecord) (es : List (List ImageRecord)) (hdr : List String)
    (rows : List (List (String × String)))
    (h : save_as_csv_list km gf (e0 :: es) = .ok (hdr, rows)) :
    rowsGood km gf (e0 :: es) hdr rows ∧ rows.length = (e0 :: es).length := by
  unfold save_as_csv_list at h
  simp only [saveEntries] at h
  cases hp : processMembers km gf (fieldnamesOf gf (e0 :: es)) false 0 e0 [] [] [] with
  | error err => rw [hp] at h; cases h
  | ok t =>
    obtain ⟨r0, hdr1, fm⟩ := t
    rw [hp] at h
    obtain ⟨h1, tl, h2, h3⟩ := saveEntries_true km gf _ es hdr1 fm [r0] hdr rows h
    constructor
    · refine ⟨r0, fm, tl, ?_, h2, ?_⟩
      · rw [hp, h1]
      · rw [h3]
        simp
    · rw [h3]
      simp [rowsFor_length km gf fm es tl h2]

theorem flush_goodFile (km : List (String × String)) (gf : String)
    (chunk : List (List ImageRecord)) (hne : chunk ≠ []) (setNum : Nat)
    (hdr : List String) (rows : List (List (String × String)))
    (hsave : save_as_csv_list km gf chunk = .ok (hdr, rows)) :
    GoodFile km gf (chunk, { name := csvName setNum, content := some (hdr, rows) }) := by
  rcases chunk with _ | ⟨e0, es⟩
  · cases hne rfl
  · obtain ⟨hrg, hlen⟩ := save_ok_rowsGood km gf e0 es hdr rows hsave
    exact ⟨hdr, rows, rfl, hlen, hrg⟩

theorem splitLoop_filesGood (km : List (String × String)) (gf : String) (limit : Nat)
    (keys : List String) (groups : String → List ImageRecord) :
    ∀ (steps : List Nat) (imageSet : List (List ImageRecord))
      (files : List (List (List ImageRecord) × CsvFile)) (setNum : Nat),
      (splitLoop km gf limit keys groups steps imageSet files setNum).error = none →
      ∀ f ∈ (splitLoop km gf limit keys groups steps imageSet files setNum).files,
        f ∈ files ∨ GoodFile km gf f := by
  intro steps
  induction steps with
  | nil =>
    intro imageSet files setNum hok f hf
    by_cases hcs : imageSet.length > 0
    · rcases hsave : save_as_csv_list km gf imageSet with e' | pr
      · have hout : splitLoop km gf limit keys groups [] imageSet files setNum =
            { files := files ++ [(imageSet, { name := csvName setNum, content := none })],
              setNum := setNum + 1, error := some e' } := by
          simp [splitLoop, hcs, flushSet, hsave]
        rw [hout] at hok
        simp at hok
      · obtain ⟨hdr, rows⟩ := pr
        have hout : splitLoop km gf limit keys groups [] imageSet files setNum =
            { files := files ++
                [(imageSet, { name := csvName setNum, content := some (hdr, rows) })],
              setNum := setNum + 1, error := none } := by
          simp [splitLoop, hcs, flushSet, hsave]
        rw [hout] at hf
        rcases List.mem_append.1 hf with h | h
        · exact Or.inl h
        · simp only [List.mem_singleton] at h
          subst h
          exact Or.inr (flush_goodFile km gf imageSet
            (by intro hnil; rw [hnil] at hcs; simp at hcs) setNum hdr rows hsave)
    · have hout : splitLoop km gf limit keys groups [] imageSet files setNum =
          { files := files, setNum := setNum, error := none } := by
        simp [splitLoop, hcs]
      rw [hout] at hf
      exact Or.inl hf
  | cons step steps ih =>
    intro imageSet files setNum hok f hf
    rcases hm : mkEntry keys groups step with e' | entry
    · have hout : splitLoop km gf limit keys groups (step :: steps) imageSet files setNum =
          { files := files, setNum := setNum, error := some e' } := by
        simp [splitLoop, hm]
      rw [hout] at hok
      simp at hok
    · by_cases hlim : limit ≤ imageSet.length + 1
      · rcases hsave : save_as_csv_list km gf (imageSet ++ [entry]) with e' | pr
        · have hout : splitLoop km gf limit keys groups (step :: steps) imageSet files setNum =
              { files := files ++
                  [(imageSet ++ [entry], { name := csvName setNum, content := none })],
                setNum := setNum + 1, error := some e' } := by
            simp [splitLoop, hm, hlim, flushSet, hsave]
          rw [hout] at hok
          simp at hok
        · obtain ⟨hdr, rows⟩ := pr
          have hout : splitLoop km gf limit keys groups (step :: steps) imageSet files setNum =
              splitLoop km gf limit keys groups steps []
                (files ++
                  [(imageSet ++ [entry],
                    { name := csvName setNum, content := some (hdr, rows) })])
                (setNum + 1) := by
            simp [splitLoop, hm, hlim, flushSet, hsave]
          rw [hout] at hok hf
          rcases ih [] _ (setNum + 1) hok f hf with h | h
          · rcases List.mem_append.1 h with h' | h'
            · exact Or.inl h'
            · simp only [List.mem_singleton] at h'
              subst h'
              exact Or.inr (flush_goodFile km gf (imageSet ++ [entry])
                (by simp) setNum hdr rows hsave)
          · exact Or.inr h
      · have hout : splitLoop km gf limit keys groups (step :: steps) imageSet files setNum =
            splitLoop km gf limit keys groups steps (imageSet ++ [entry]) files setNum := by
          simp [splitLoop, hm, hlim]
        rw [hout] at hok hf
        exact ih (imageSet ++ [entry]) files setNum hok f hf

theorem splitLoop_join (km : List (String × String)) (gf : String) (limit : Nat)
    (keys : List String) (groups : String → List ImageRecord) :
    ∀ (steps : List Nat) (imageSet : List (List ImageRecord))
      (files : List (List (List ImageRecord) × CsvFile)) (setNum : Nat),
      (splitLoop km gf limit keys groups steps imageSet files setNum).error = none →
      ((splitLoop km gf limit keys groups steps imageSet files setNum).files.map
          (fun f => f.1)).flatten =
        (files.map (fun f => f.1)).flatten ++ imageSet ++
          steps.map (fun s => entryAtD keys groups s) := by
  intro steps
  induction steps with
  | nil =>
    intro imageSet files setNum hok
    by_cases hcs : imageSet.length > 0
    · rcases hsave : save_as_csv_list km gf imageSet with e' | pr
      · have hout : splitLoop km gf limit keys groups [] imageSet files setNum =
            { files := files ++ [(imageSet, { name := csvName setNum, content := none })],
              setNum := setNum + 1, error := some e' } := by
          simp [splitLoop, hcs, flushSet, hsave]
        rw [hout] at hok
        simp at hok
      · obtain ⟨hdr, rows⟩ := pr
        have hout : splitLoop km gf limit keys groups [] imageSet files setNum =
            { files := files ++
                [(imageSet, { name := csvName setNum, content := some (hdr, rows) })],
              setNum := setNum + 1, error := none } := by
          simp [splitLoop, hcs, flushSet, hsave]
        rw [hout]
        simp
    · have hcs0 : imageSet = [] := by
        rcases imageSet with _ | _
        · rfl
        · simp at hcs
      have hout : splitLoop km gf limit keys groups [] imageSet files setNum =
          { files := files, setNum := setNum, error := none } := by
        simp [splitLoop, hcs]
      rw [hout, hcs0]
      simp
  | cons step steps ih =>
    intro imageSet files setNum hok
    rcases hm : mkEntry keys groups step with e' | entry
    · have hout : splitLoop km gf limit keys groups (step :: steps) imageSet files setNum =
          { files := files, setNum := setNum, error := some e' } := by
        simp [splitLoop, hm]
      rw [hout] at hok
      simp at hok
    · have hentry : entryAtD keys groups step = entry := by
        simp [entryAtD, hm, Except.toOption]
      by_cases hlim : limit ≤ imageSet.length + 1
      · rcases hsave : save_as_csv_list km gf (imageSet ++ [entry]) with e' | pr
        · have hout : splitLoop km gf limit keys groups (step :: steps) imageSet files setNum =
              { files := files ++
                  [(imageSet ++ [entry], { name := csvName setNum, content := none })],
                setNum := setNum + 1, error := some e' } := by
            simp [splitLoop, hm, hlim, flushSet, hsave]
          rw [hout] at hok
          simp at hok
        · obtain ⟨hdr, rows⟩ := pr
          have hout : splitLoop km gf limit keys groups (step :: steps) imageSet files setNum =
              splitLoop km gf limit keys groups steps []
                (files ++
                  [(imageSet ++ [entry],
                    { name := csvName setNum, content := some (hdr, rows) })])
                (setNum + 1) := by
            simp [splitLoop, hm, hlim, flushSet, hsave]
          rw [hout] at hok ⊢
          rw [ih [] _ (setNum + 1) hok]
          simp [hentry, List.append_assoc]
      · have hout : splitLoop km gf limit keys groups (step :: steps) imageSet files setNum =
            splitLoop km gf limit keys groups steps (imageSet ++ [entry]) files setNum := by
          simp [splitLoop, hm, hlim]
        rw [hout] at hok ⊢
        rw [ih (imageSet ++ [entry]) files setNum hok]
        simp [hentry, List.append_assoc]

/-- C8: for every `split_images` run that finishes without an exception, the
concatenation of the emitted chunks, in batch-file order, is exactly the
sequence of image sets built by the step loop, in the original step order (no
reordering, no duplication, no loss), and every emitted batch file carries
fully written contents whose data rows are exactly one row per image set of
its chunk, in chunk order. -/
theorem claim8_roundtrip (km : List (String × String)) (gf : String) (limit : Nat)
    (files : List ImageRecord)
    (hok : (split_images km gf limit files).error = none) :
    ((split_images km gf limit files).files.map (fun f => f.1)).flatten =
      (List.range (numImageSets files)).map
        (fun s => entryAtD (keysOf files) (groupsOf files) s) ∧
    ∀ f ∈ (split_images km gf limit files).files, GoodFile km gf f := by
  have h0 : ¬ files.length = 0 := by
    intro h
    simp [split_images, h] at hok
  have h1 : ¬ (keysOf files).length = 0 := by
    intro h
    simp [split_images, h0, h] at hok
  have h2 : (keysOf files).all
      (fun k => (groupsOf files k).length = numImageSets files) = true := by
    by_contra h
    have hfalse : (keysOf files).all
        (fun k => (groupsOf files k).length = numImageSets files) = false := by
      revert h
      cases (keysOf files).all (fun k => (groupsOf files k).length = numImageSets files) <;> simp
    simp [split_images, h0, h1, hfalse] at hok
  have hout : split_images km gf limit files =
      splitLoop km gf limit (keysOf files) (groupsOf files)
        (List.range (numImageSets files)) [] [] 0 := by
    simp [split_images, h0, h1, h2]
  rw [hout] at hok ⊢
  constructor
  · have hj := splitLoop_join km gf limit (keysOf files) (groupsOf files)
      (List.range (numImageSets files)) [] [] 0 hok
    simpa using hj
  · intro f hf
    rcases splitLoop_filesGood km gf limit (keysOf files) (groupsOf files)
      (List.range (numImageSets files)) [] [] 0 hok f hf with h | h
    · cases h
    · exact h

theorem claim8_roundtrip_witness :
    (split_images kmW "Channel" 2 filesC2).error = none ∧
    (((split_images kmW "Channel" 2 filesC2).files.map (fun f => f.1)).flatten =
        (List.range (numImageSets filesC2)).map
          (fun s => entryAtD (keysOf filesC2) (groupsOf filesC2) s) ∧
     ∀ f ∈ (split_images kmW "Channel" 2 filesC2).files, GoodFile kmW "Channel" f) :=
  ⟨by decide, claim8_roundtrip kmW "Channel" 2 filesC2 (by decide)⟩
